import Mathlib

/-!
Verification development for the RocketPy environment tools
(`rocketpy/environment/tools.py`), the liquid-motor tank model and the
bilinear interpolation helper.  Coordinates and field values are embedded
as rationals; Python lists become Lean lists (the in-place `reverse`
mutation is made explicit by returning the final list state); functions
that can `raise` return `Except`; emitted warnings become part of the
return value.
-/

/-- Python's `%` on numbers: the result has the sign of the divisor,
`x % y = x - y * floor(x / y)`. -/
def pymod (x y : ℚ) : ℚ := x - y * ⌊x / y⌋

/-- Python's `bisect.bisect` (right insertion point).  On a list sorted in
ascending order — the only way the source calls it — the insertion point is
the number of elements `≤ x`. -/
def bisect_right (a : List ℚ) (x : ℚ) : ℕ := a.countP (fun y => decide (y ≤ x))

/-- Python's `bisect.bisect_left`.  On a list sorted in ascending order the
left insertion point is the number of elements `< x`. -/
def bisect_left (a : List ℚ) (x : ℚ) : ℕ := a.countP (fun y => decide (y < x))

/-- Structured stand-in for the `ValueError` messages raised by
`find_longitude_index` / `find_latitude_index`; it records the offending
value and the two ends of the region covered by the file, exactly the data
interpolated into the Python message. -/
inductive GridError where
  | lonOutOfRange (lon lo hi : ℚ)
  | latOutOfRange (lat lo hi : ℚ)
deriving DecidableEq, Repr

/-- Longitude-convention normalization, the first block of
`find_longitude_index`: if either end of the axis is negative the file uses
-180..180 and the query becomes `longitude if longitude < 180 else
-180 + longitude % 180`; otherwise the file uses 0..360 and the query
becomes `longitude % 360`. -/
def normalize_longitude (longitude : ℚ) (lon_list : List ℚ) : ℚ :=
  if lon_list.getD 0 0 < 0 ∨ lon_list.getD (lon_list.length - 1) 0 < 0 then
    if longitude < 180 then longitude else -180 + pymod longitude 180
  else
    pymod longitude 360

/-- Embedding of `find_longitude_index(longitude, lon_list)`.  The first
component of the result is the final state of the caller's `lon_list`
(the descending branch reverses it in place and reverses it back); the
second is the returned `(lon, lon_index)` pair or the raised error. -/
def find_longitude_index (longitude : ℚ) (lon_list : List ℚ) :
    List ℚ × Except GridError (ℚ × ℕ) :=
  let lon := normalize_longitude longitude lon_list
  -- check if reversed or sorted
  let st : List ℚ × ℕ :=
    if lon_list.getD 0 0 < lon_list.getD (lon_list.length - 1) 0 then
      (lon_list, bisect_right lon_list lon)
    else
      let revd := lon_list.reverse
      (revd.reverse, revd.length - bisect_left revd lon)
  let lst := st.1
  let i0 := st.2
  -- take care of longitude value equal to maximum longitude in the grid
  let i := if i0 = lst.length ∧ lst.getD (i0 - 1) 0 = lon then i0 - 1 else i0
  -- check if longitude value is inside the grid
  if i = 0 ∨ i = lst.length then
    (lst, .error (.lonOutOfRange lon (lst.getD 0 0) (lst.getD (lst.length - 1) 0)))
  else
    (lst, .ok (lon, i))

/-- Embedding of `find_latitude_index(latitude, lat_list)`: identical to the
longitude search but without the convention normalization step. -/
def find_latitude_index (latitude : ℚ) (lat_list : List ℚ) :
    List ℚ × Except GridError (ℚ × ℕ) :=
  let st : List ℚ × ℕ :=
    if lat_list.getD 0 0 < lat_list.getD (lat_list.length - 1) 0 then
      (lat_list, bisect_right lat_list latitude)
    else
      let revd := lat_list.reverse
      (revd.reverse, revd.length - bisect_left revd latitude)
  let lst := st.1
  let i0 := st.2
  let i := if i0 = lst.length ∧ lst.getD (i0 - 1) 0 = latitude then i0 - 1 else i0
  if i = 0 ∨ i = lst.length then
    (lst, .error (.latOutOfRange latitude (lst.getD 0 0) (lst.getD (lst.length - 1) 0)))
  else
    (lst, .ok (latitude, i))

/-- Pure view of the index computed by both search functions after the
normalization step: insertion point (`bisect` on an ascending axis, mirrored
`bisect_left` on a reversed descending one) followed by the last-point
fix-up. -/
def axis_index (q : ℚ) (lst : List ℚ) : ℕ :=
  let i0 :=
    if lst.getD 0 0 < lst.getD (lst.length - 1) 0 then bisect_right lst q
    else lst.reverse.length - bisect_left lst.reverse q
  if i0 = lst.length ∧ lst.getD (i0 - 1) 0 = q then i0 - 1 else i0

/-! Time index resolution. -/

/-- Structured stand-in for the `ValueError` messages raised by
`find_time_index`; it records the boundary time sample (file start or file
finish, in the axis's numeric encoding) named in the message. -/
inductive TimeError where
  | beforeStart (start : ℚ)
  | afterFinish (finish : ℚ)
deriving DecidableEq, Repr

/-- Model of `netCDF4.date2index(datetime_date, time_array, select="nearest")`:
the index of the time sample closest to the query's numeric encoding,
earliest such index on ties (the numpy argmin convention). -/
def nearest_time_index (time_array : List ℚ) (x : ℚ) : ℕ :=
  (List.range time_array.length).foldl
    (fun best i =>
      if |time_array.getD i 0 - x| < |time_array.getD best 0 - x| then i else best)
    0

/-- Embedding of `find_time_index(datetime_date, time_array)`.  The datetime
argument is represented by its numeric encoding `input_time_num` in the time
axis's units (`netCDF4.date2num` for a fixed unit system).  On success the
second component records the emitted warning: `some file_time_num` when the
exact time was not available and the nearest sample was substituted, `none`
when the match was exact. -/
def find_time_index (input_time_num : ℚ) (time_array : List ℚ) :
    Except TimeError (ℕ × Option ℚ) :=
  let time_index := nearest_time_index time_array input_time_num
  let file_time_num := time_array.getD time_index 0
  -- check if time is inside range supplied by file
  if time_index = 0 ∧ input_time_num < file_time_num then
    .error (.beforeStart file_time_num)
  else if time_index = time_array.length - 1 ∧ file_time_num < input_time_num then
    .error (.afterFinish file_time_num)
  -- check if time is exactly equal to one in the file
  else if input_time_num ≠ file_time_num then
    .ok (time_index, some file_time_num)
  else
    .ok (time_index, none)

/-! Masked dataset cleaning. -/

/-- Entry of a numpy masked array: the stored value plus its mask flag. -/
structure MaskedVal where
  val : ℚ
  mask : Bool
deriving DecidableEq, Repr

/-- Embedding of `np.ma.column_stack(list(args))` for same-length 1-D masked
arrays (the only way the source calls it): row `i` of the stacked 2-D array
collects entry `i` of each argument column. -/
def column_stack (args : List (List MaskedVal)) : List (List MaskedVal) :=
  (List.range ((args.head?.map List.length).getD 0)).map
    fun i => args.map fun col => col.getD i ⟨0, false⟩

/-- Embedding of `mask_and_clean_dataset(*args)`: stacks the argument
columns; if any entry is masked, removes every row containing a masked value
(`np.ma.compress_rows`) and emits the missing-data warning.  The boolean in
the result records whether the warning was emitted. -/
def mask_and_clean_dataset (args : List (List MaskedVal)) :
    List (List MaskedVal) × Bool :=
  let data_array := column_stack args
  if data_array.any (fun row => row.any (fun v => v.mask)) then
    (data_array.filter (fun row => !row.any (fun v => v.mask)), true)
  else
    (data_array, false)

/-! Liquid-motor tank model and bilinear interpolation. -/

/-- Modelled from the spec: `MassFlowRateBasedTank` is defined in
rocketpy/motors/LiquidMotor.py, which is not among the sources here (only
its test is).  Per the spec's TankModel contract, a flow-rate-based tank is
built from four flow rates — constants in the scenario under test — and the
two initial masses. -/
structure MassFlowRateBasedTank where
  initial_liquid_mass : ℚ
  initial_gas_mass : ℚ
  liquid_mass_flow_rate_in : ℚ
  gas_mass_flow_rate_in : ℚ
  liquid_mass_flow_rate_out : ℚ
  gas_mass_flow_rate_out : ℚ
deriving DecidableEq, Repr

/-- Modelled from the spec: FlowRateBased `net_mass_flow_rate(t)` returns
`liquid_in + gas_in − liquid_out − gas_out` directly. -/
def MassFlowRateBasedTank.net_mass_flow_rate (tk : MassFlowRateBasedTank)
    (_t : ℚ) : ℚ :=
  tk.liquid_mass_flow_rate_in + tk.gas_mass_flow_rate_in -
    tk.liquid_mass_flow_rate_out - tk.gas_mass_flow_rate_out

/-- Modelled from the spec: FlowRateBased `mass(t)` is the initial mass plus
the integral of the net flow rate from 0 to t; for the constant rates of
this model the integral is `net · t` in closed form. -/
def MassFlowRateBasedTank.mass (tk : MassFlowRateBasedTank) (t : ℚ) : ℚ :=
  tk.initial_liquid_mass + tk.initial_gas_mass + tk.net_mass_flow_rate t * t

/-- The concrete tank of the `test_mfr_tank_basic` scenario:
initial_liquid_mass 5, initial_gas_mass 0.1, liquid flow 0.1 in / 0.2 out,
gas flow 0.01 in / 0.02 out. -/
def mfr_test_tank : MassFlowRateBasedTank :=
  ⟨5, 1/10, 1/10, 1/100, 2/10, 2/100⟩

/-- Modelled from the spec: `bilinear_interpolation` is defined in
rocketpy/tools.py, which is not among the sources here; the spec's
BilinearFieldSampler section gives its formula.  `fij` is the field value at
the corner `(xi, yj)`. -/
def bilinear_interpolation (x y x1 x2 y1 y2 f11 f12 f21 f22 : ℚ) : ℚ :=
  (f11 * (x2 - x) * (y2 - y) + f21 * (x - x1) * (y2 - y) +
      f12 * (x2 - x) * (y - y1) + f22 * (x - x1) * (y - y1)) /
    ((x2 - x1) * (y2 - y1))

/-- Embedding of `apply_bilinear_interpolation`: selects the four corners of
the 2×2 cell `data` (`data i j` is the value at `(x(i+1), y(j+1))`) and
delegates to `bilinear_interpolation` in the source's argument order
`data[0,0], data[0,1], data[1,0], data[1,1]`. -/
def apply_bilinear_interpolation (x y x1 x2 y1 y2 : ℚ)
    (data : Fin 2 → Fin 2 → ℚ) : ℚ :=
  bilinear_interpolation x y x1 x2 y1 y2 (data 0 0) (data 0 1) (data 1 0)
    (data 1 1)

lemma find_longitude_index_eq (q : ℚ) (l : List ℚ) :
    find_longitude_index q l =
      (l,
        if axis_index (normalize_longitude q l) l = 0 ∨
            axis_index (normalize_longitude q l) l = l.length then
          .error (.lonOutOfRange (normalize_longitude q l) (l.getD 0 0)
            (l.getD (l.length - 1) 0))
        else .ok (normalize_longitude q l, axis_index (normalize_longitude q l) l)) := by
  unfold find_longitude_index axis_index
  by_cases h : l.getD 0 0 < l.getD (l.length - 1) 0
  · simp only [if_pos h]
    split_ifs <;> rfl
  · simp only [if_neg h, List.reverse_reverse, List.length_reverse]
    split_ifs <;> rfl

lemma find_latitude_index_eq (q : ℚ) (l : List ℚ) :
    find_latitude_index q l =
      (l,
        if axis_index q l = 0 ∨ axis_index q l = l.length then
          .error (.latOutOfRange q (l.getD 0 0) (l.getD (l.length - 1) 0))
        else .ok (q, axis_index q l)) := by
  unfold find_latitude_index axis_index
  by_cases h : l.getD 0 0 < l.getD (l.length - 1) 0
  · simp only [if_pos h]
    split_ifs <;> rfl
  · simp only [if_neg h, List.reverse_reverse, List.length_reverse]
    split_ifs <;> rfl

/-! Helper lemmas about sorted axes. -/

lemma getD_mem_of_lt {α : Type} {l : List α} {i : ℕ} {d : α} (h : i < l.length) :
    l.getD i d ∈ l := by
  rw [List.getD_eq_getElem _ _ h]
  exact List.getElem_mem h

lemma getD_reverse {l : List ℚ} {i : ℕ} (h : i < l.length) :
    l.reverse.getD i 0 = l.getD (l.length - 1 - i) 0 := by
  have h' : i < l.reverse.length := by simpa using h
  rw [List.getD_eq_getElem _ _ h', List.getElem_reverse,
    List.getD_eq_getElem _ _ (by omega)]

lemma sorted_head_le {l : List ℚ} (hs : l.Sorted (· ≤ ·)) {y : ℚ} (hy : y ∈ l) :
    l.getD 0 0 ≤ y := by
  cases l with
  | nil => cases hy
  | cons a t =>
    rcases List.mem_cons.1 hy with rfl | hyt
    · simp
    · simpa using (List.sorted_cons.1 hs).1 y hyt

lemma sorted_ge_head {l : List ℚ} (hs : l.Sorted (· ≥ ·)) {y : ℚ} (hy : y ∈ l) :
    y ≤ l.getD 0 0 := by
  cases l with
  | nil => cases hy
  | cons a t =>
    rcases List.mem_cons.1 hy with rfl | hyt
    · simp
    · simpa using (List.sorted_cons.1 hs).1 y hyt

lemma sorted_le_last {l : List ℚ} (hs : l.Sorted (· ≤ ·)) {y : ℚ} (hy : y ∈ l) :
    y ≤ l.getD (l.length - 1) 0 := by
  have hne : l ≠ [] := List.ne_nil_of_mem hy
  have hlen : 0 < l.length := List.length_pos.2 hne
  have hrev : l.reverse.Sorted (· ≥ ·) := by
    unfold List.Sorted
    rw [List.pairwise_reverse]
    exact hs
  have := sorted_ge_head hrev (List.mem_reverse.2 hy)
  rwa [getD_reverse hlen, Nat.sub_zero] at this

lemma sorted_ge_last {l : List ℚ} (hs : l.Sorted (· ≥ ·)) {y : ℚ} (hy : y ∈ l) :
    l.getD (l.length - 1) 0 ≤ y := by
  have hne : l ≠ [] := List.ne_nil_of_mem hy
  have hlen : 0 < l.length := List.length_pos.2 hne
  have hrev : l.reverse.Sorted (· ≤ ·) := by
    unfold List.Sorted
    rw [List.pairwise_reverse]
    exact hs
  have := sorted_head_le hrev (List.mem_reverse.2 hy)
  rwa [getD_reverse hlen, Nat.sub_zero] at this

lemma sorted_lt_getD_lt {l : List ℚ} (hs : l.Sorted (· < ·)) {i j : ℕ}
    (hij : i < j) (hj : j < l.length) : l.getD i 0 < l.getD j 0 := by
  rw [List.getD_eq_getElem _ _ (lt_trans hij hj), List.getD_eq_getElem _ _ hj]
  exact List.pairwise_iff_get.1 hs ⟨i, lt_trans hij hj⟩ ⟨j, hj⟩ hij

lemma sorted_gt_getD_lt {l : List ℚ} (hs : l.Sorted (· > ·)) {i j : ℕ}
    (hij : i < j) (hj : j < l.length) : l.getD j 0 < l.getD i 0 := by
  rw [List.getD_eq_getElem _ _ (lt_trans hij hj), List.getD_eq_getElem _ _ hj]
  exact List.pairwise_iff_get.1 hs ⟨i, lt_trans hij hj⟩ ⟨j, hj⟩ hij

lemma sorted_reverse_asc {l : List ℚ} (hs : l.Sorted (· > ·)) :
    l.reverse.Sorted (· < ·) := by
  unfold List.Sorted at *
  rw [List.pairwise_reverse]
  exact hs

/-! Characterization of the two bisect primitives on sorted lists. -/

lemma bisect_right_eq_zero {lst : List ℚ} {q : ℚ} (hs : lst.Sorted (· ≤ ·))
    (hq : q < lst.getD 0 0) : bisect_right lst q = 0 := by
  unfold bisect_right
  rw [List.countP_eq_zero]
  intro y hy
  simp only [decide_eq_true_eq]
  exact not_le.2 (lt_of_lt_of_le hq (sorted_head_le hs hy))

lemma bisect_right_eq_length {lst : List ℚ} {q : ℚ} (hs : lst.Sorted (· ≤ ·))
    (hq : lst.getD (lst.length - 1) 0 ≤ q) : bisect_right lst q = lst.length := by
  unfold bisect_right
  rw [List.countP_eq_length]
  intro y hy
  simp only [decide_eq_true_eq]
  exact le_trans (sorted_le_last hs hy) hq

lemma bisect_right_pos {lst : List ℚ} {q : ℚ} (h0 : 0 < lst.length)
    (hq : lst.getD 0 0 ≤ q) : 0 < bisect_right lst q := by
  unfold bisect_right
  rw [List.countP_pos_iff]
  exact ⟨lst.getD 0 0, getD_mem_of_lt h0, by simpa using hq⟩

lemma bisect_right_lt_length {lst : List ℚ} {q : ℚ} (h0 : 0 < lst.length)
    (hq : q < lst.getD (lst.length - 1) 0) : bisect_right lst q < lst.length := by
  unfold bisect_right
  refine lt_of_le_of_ne (List.countP_le_length _) fun he => ?_
  have h := List.countP_eq_length.1 he (lst.getD (lst.length - 1) 0)
    (getD_mem_of_lt (by omega))
  simp only [decide_eq_true_eq] at h
  exact absurd h (not_le.2 hq)

lemma bisect_left_eq_zero {lst : List ℚ} {q : ℚ} (hs : lst.Sorted (· ≤ ·))
    (hq : q ≤ lst.getD 0 0) : bisect_left lst q = 0 := by
  unfold bisect_left
  rw [List.countP_eq_zero]
  intro y hy
  simp only [decide_eq_true_eq]
  exact not_lt.2 (le_trans hq (sorted_head_le hs hy))

lemma bisect_left_eq_length {lst : List ℚ} {q : ℚ} (hs : lst.Sorted (· ≤ ·))
    (hq : lst.getD (lst.length - 1) 0 < q) : bisect_left lst q = lst.length := by
  unfold bisect_left
  rw [List.countP_eq_length]
  intro y hy
  simp only [decide_eq_true_eq]
  exact lt_of_le_of_lt (sorted_le_last hs hy) hq

lemma bisect_left_pos {lst : List ℚ} {q : ℚ} (h0 : 0 < lst.length)
    (hq : lst.getD 0 0 < q) : 0 < bisect_left lst q := by
  unfold bisect_left
  rw [List.countP_pos_iff]
  exact ⟨lst.getD 0 0, getD_mem_of_lt h0, by simpa using hq⟩

lemma bisect_left_lt_length {lst : List ℚ} {q : ℚ} (h0 : 0 < lst.length)
    (hq : q ≤ lst.getD (lst.length - 1) 0) : bisect_left lst q < lst.length := by
  unfold bisect_left
  refine lt_of_le_of_ne (List.countP_le_length _) fun he => ?_
  have h := List.countP_eq_length.1 he (lst.getD (lst.length - 1) 0)
    (getD_mem_of_lt (by omega))
  simp only [decide_eq_true_eq] at h
  exact absurd h (not_lt.2 hq)

/-! Value of `axis_index` in each region of the query, per axis ordering. -/

lemma axis_index_below_asc {lst : List ℚ} {q : ℚ} (hlen : 2 ≤ lst.length)
    (hs : lst.Sorted (· < ·)) (hq : q < lst.getD 0 0) : axis_index q lst = 0 := by
  have hsle : lst.Sorted (· ≤ ·) := List.Pairwise.imp le_of_lt hs
  have hlt : lst.getD 0 0 < lst.getD (lst.length - 1) 0 :=
    sorted_lt_getD_lt hs (by omega) (by omega)
  have hcond : ¬(0 = lst.length ∧ lst.getD (0 - 1) 0 = q) := by
    rintro ⟨h, -⟩
    omega
  unfold axis_index
  rw [if_pos hlt, bisect_right_eq_zero hsle hq, if_neg hcond]

lemma axis_index_above_asc {lst : List ℚ} {q : ℚ} (hlen : 2 ≤ lst.length)
    (hs : lst.Sorted (· < ·)) (hq : lst.getD (lst.length - 1) 0 < q) :
    axis_index q lst = lst.length := by
  have hsle : lst.Sorted (· ≤ ·) := List.Pairwise.imp le_of_lt hs
  have hlt : lst.getD 0 0 < lst.getD (lst.length - 1) 0 :=
    sorted_lt_getD_lt hs (by omega) (by omega)
  have hcond : ¬(lst.length = lst.length ∧ lst.getD (lst.length - 1) 0 = q) := by
    rintro ⟨-, h⟩
    exact absurd h (ne_of_lt hq)
  unfold axis_index
  rw [if_pos hlt, bisect_right_eq_length hsle hq.le, if_neg hcond]

lemma axis_index_inside_asc {lst : List ℚ} {q : ℚ} (hlen : 2 ≤ lst.length)
    (hs : lst.Sorted (· < ·)) (hq0 : lst.getD 0 0 ≤ q)
    (hq1 : q ≤ lst.getD (lst.length - 1) 0) :
    1 ≤ axis_index q lst ∧ axis_index q lst ≤ lst.length - 1 := by
  have hsle : lst.Sorted (· ≤ ·) := List.Pairwise.imp le_of_lt hs
  have hlt : lst.getD 0 0 < lst.getD (lst.length - 1) 0 :=
    sorted_lt_getD_lt hs (by omega) (by omega)
  unfold axis_index
  rw [if_pos hlt]
  rcases eq_or_lt_of_le hq1 with heq | hlt2
  · rw [bisect_right_eq_length hsle heq.ge, if_pos ⟨rfl, heq.symm⟩]
    omega
  · have p1 : 0 < bisect_right lst q := bisect_right_pos (by omega) hq0
    have p2 : bisect_right lst q < lst.length := bisect_right_lt_length (by omega) hlt2
    have hcond : ¬(bisect_right lst q = lst.length ∧
        lst.getD (bisect_right lst q - 1) 0 = q) := by
      rintro ⟨h, -⟩
      omega
    rw [if_neg hcond]
    omega

lemma axis_index_below_desc {lst : List ℚ} {q : ℚ} (hlen : 2 ≤ lst.length)
    (hs : lst.Sorted (· > ·)) (hq : q < lst.getD (lst.length - 1) 0) :
    axis_index q lst = lst.length := by
  have hgt : lst.getD (lst.length - 1) 0 < lst.getD 0 0 :=
    sorted_gt_getD_lt hs (by omega) (by omega)
  have hrev : lst.reverse.Sorted (· ≤ ·) :=
    List.Pairwise.imp le_of_lt (sorted_reverse_asc hs)
  have er0 : lst.reverse.getD 0 0 = lst.getD (lst.length - 1) 0 := by
    simpa using getD_reverse (show 0 < lst.length by omega)
  have hc0 : bisect_left lst.reverse q = 0 :=
    bisect_left_eq_zero hrev (by rw [er0]; exact hq.le)
  have hcond : ¬(lst.length = lst.length ∧ lst.getD (lst.length - 1) 0 = q) := by
    rintro ⟨-, h⟩
    exact absurd h (ne_of_gt hq)
  unfold axis_index
  rw [if_neg (not_lt.2 hgt.le), hc0, List.length_reverse, Nat.sub_zero, if_neg hcond]

lemma axis_index_above_desc {lst : List ℚ} {q : ℚ} (hlen : 2 ≤ lst.length)
    (hs : lst.Sorted (· > ·)) (hq : lst.getD 0 0 < q) : axis_index q lst = 0 := by
  have hgt : lst.getD (lst.length - 1) 0 < lst.getD 0 0 :=
    sorted_gt_getD_lt hs (by omega) (by omega)
  have hrev : lst.reverse.Sorted (· ≤ ·) :=
    List.Pairwise.imp le_of_lt (sorted_reverse_asc hs)
  have er1 : lst.reverse.getD (lst.reverse.length - 1) 0 = lst.getD 0 0 := by
    rw [List.length_reverse, getD_reverse (show lst.length - 1 < lst.length by omega)]
    congr 1
    omega
  have hcn : bisect_left lst.reverse q = lst.reverse.length :=
    bisect_left_eq_length hrev (by rw [er1]; exact hq)
  have hcond : ¬(0 = lst.length ∧ lst.getD (0 - 1) 0 = q) := by
    rintro ⟨h, -⟩
    omega
  unfold axis_index
  rw [if_neg (not_lt.2 hgt.le), hcn, Nat.sub_self, if_neg hcond]

lemma axis_index_inside_desc {lst : List ℚ} {q : ℚ} (hlen : 2 ≤ lst.length)
    (hs : lst.Sorted (· > ·)) (hq0 : lst.getD (lst.length - 1) 0 ≤ q)
    (hq1 : q ≤ lst.getD 0 0) :
    1 ≤ axis_index q lst ∧ axis_index q lst ≤ lst.length - 1 := by
  have hgt : lst.getD (lst.length - 1) 0 < lst.getD 0 0 :=
    sorted_gt_getD_lt hs (by omega) (by omega)
  have hrev : lst.reverse.Sorted (· ≤ ·) :=
    List.Pairwise.imp le_of_lt (sorted_reverse_asc hs)
  have er0 : lst.reverse.getD 0 0 = lst.getD (lst.length - 1) 0 := by
    simpa using getD_reverse (show 0 < lst.length by omega)
  have er1 : lst.reverse.getD (lst.reverse.length - 1) 0 = lst.getD 0 0 := by
    rw [List.length_reverse, getD_reverse (show lst.length - 1 < lst.length by omega)]
    congr 1
    omega
  unfold axis_index
  rw [if_neg (not_lt.2 hgt.le)]
  rcases eq_or_lt_of_le hq0 with heq | hlt2
  · have hc0 : bisect_left lst.reverse q = 0 :=
      bisect_left_eq_zero hrev (by rw [er0]; exact heq.ge)
    rw [hc0, List.length_reverse, Nat.sub_zero, if_pos ⟨rfl, heq⟩]
    omega
  · have p1 : 0 < bisect_left lst.reverse q :=
      bisect_left_pos (by rw [List.length_reverse]; omega) (by rw [er0]; exact hlt2)
    have p2 : bisect_left lst.reverse q < lst.reverse.length :=
      bisect_left_lt_length (by rw [List.length_reverse]; omega) (by rw [er1]; exact hq1)
    rw [List.length_reverse] at p2 ⊢
    have hcond : ¬(lst.length - bisect_left lst.reverse q = lst.length ∧
        lst.getD (lst.length - bisect_left lst.reverse q - 1) 0 = q) := by
      rintro ⟨h, -⟩
      omega
    rw [if_neg hcond]
    omega

lemma axis_index_spec (lst : List ℚ) (q : ℚ) (hlen : 2 ≤ lst.length)
    (hs : lst.Sorted (· < ·) ∨ lst.Sorted (· > ·)) :
    ((axis_index q lst = 0 ∨ axis_index q lst = lst.length) ↔
      (q < min (lst.getD 0 0) (lst.getD (lst.length - 1) 0) ∨
        max (lst.getD 0 0) (lst.getD (lst.length - 1) 0) < q)) := by
  rcases hs with hs | hs
  · have hlt : lst.getD 0 0 < lst.getD (lst.length - 1) 0 :=
      sorted_lt_getD_lt hs (by omega) (by omega)
    rw [min_eq_left hlt.le, max_eq_right hlt.le]
    rcases lt_or_le q (lst.getD 0 0) with h | h
    · exact iff_of_true (Or.inl (axis_index_below_asc hlen hs h)) (Or.inl h)
    · rcases le_or_lt q (lst.getD (lst.length - 1) 0) with h2 | h2
      · have hb := axis_index_inside_asc hlen hs h h2
        refine iff_of_false (by omega) ?_
        push_neg
        exact ⟨h, h2⟩
      · exact iff_of_true (Or.inr (axis_index_above_asc hlen hs h2)) (Or.inr h2)
  · have hgt : lst.getD (lst.length - 1) 0 < lst.getD 0 0 :=
      sorted_gt_getD_lt hs (by omega) (by omega)
    rw [min_eq_right hgt.le, max_eq_left hgt.le]
    rcases lt_or_le q (lst.getD (lst.length - 1) 0) with h | h
    · exact iff_of_true (Or.inr (axis_index_below_desc hlen hs h)) (Or.inl h)
    · rcases le_or_lt q (lst.getD 0 0) with h2 | h2
      · have hb := axis_index_inside_desc hlen hs h h2
        refine iff_of_false (by omega) ?_
        push_neg
        exact ⟨h, h2⟩
      · exact iff_of_true (Or.inl (axis_index_above_desc hlen hs h2)) (Or.inr h2)

lemma axis_index_inside_generic (lst : List ℚ) (q : ℚ) (hlen : 2 ≤ lst.length)
    (hs : lst.Sorted (· < ·) ∨ lst.Sorted (· > ·))
    (h1 : min (lst.getD 0 0) (lst.getD (lst.length - 1) 0) ≤ q)
    (h2 : q ≤ max (lst.getD 0 0) (lst.getD (lst.length - 1) 0)) :
    1 ≤ axis_index q lst ∧ axis_index q lst ≤ lst.length - 1 := by
  rcases hs with hs | hs
  · have hlt : lst.getD 0 0 < lst.getD (lst.length - 1) 0 :=
      sorted_lt_getD_lt hs (by omega) (by omega)
    rw [min_eq_left hlt.le] at h1
    rw [max_eq_right hlt.le] at h2
    exact axis_index_inside_asc hlen hs h1 h2
  · have hgt : lst.getD (lst.length - 1) 0 < lst.getD 0 0 :=
      sorted_gt_getD_lt hs (by omega) (by omega)
    rw [min_eq_right hgt.le] at h1
    rw [max_eq_left hgt.le] at h2
    exact axis_index_inside_desc hlen hs h1 h2

/-- C9: after `find_longitude_index` or `find_latitude_index` returns or
raises, the caller's axis list holds exactly its original element sequence:
the descending branch reverses the list in place but reverses it back before
any return or raise, so the axis argument is observably unmodified in every
outcome. -/
theorem claim_C9 (q : ℚ) (l : List ℚ) :
    (find_longitude_index q l).1 = l ∧ (find_latitude_index q l).1 = l := by
  rw [find_longitude_index_eq, find_latitude_index_eq]
  exact ⟨rfl, rfl⟩

/-- C1: on an axis of at least two elements, strictly ascending or strictly
descending, `find_longitude_index` and `find_latitude_index` raise the
out-of-range error exactly when the (normalized, for longitude) query lies
strictly outside the closed span between the axis's two extreme values, and
return successfully with an index `i`, `1 ≤ i ≤ len(axis) - 1`, whenever the
query equals an axis endpoint or lies inside the span. -/
theorem claim_C1 (q : ℚ) (axis : List ℚ) (hlen : 2 ≤ axis.length)
    (hs : axis.Sorted (· < ·) ∨ axis.Sorted (· > ·)) :
    ((∃ e, (find_longitude_index q axis).2 = .error e) ↔
        (normalize_longitude q axis <
            min (axis.getD 0 0) (axis.getD (axis.length - 1) 0) ∨
          max (axis.getD 0 0) (axis.getD (axis.length - 1) 0) <
            normalize_longitude q axis)) ∧
    ((min (axis.getD 0 0) (axis.getD (axis.length - 1) 0) ≤
          normalize_longitude q axis ∧
        normalize_longitude q axis ≤
          max (axis.getD 0 0) (axis.getD (axis.length - 1) 0)) →
      ∃ i, (find_longitude_index q axis).2 = .ok (normalize_longitude q axis, i) ∧
        1 ≤ i ∧ i ≤ axis.length - 1) ∧
    ((∃ e, (find_latitude_index q axis).2 = .error e) ↔
        (q < min (axis.getD 0 0) (axis.getD (axis.length - 1) 0) ∨
          max (axis.getD 0 0) (axis.getD (axis.length - 1) 0) < q)) ∧
    ((min (axis.getD 0 0) (axis.getD (axis.length - 1) 0) ≤ q ∧
        q ≤ max (axis.getD 0 0) (axis.getD (axis.length - 1) 0)) →
      ∃ i, (find_latitude_index q axis).2 = .ok (q, i) ∧
        1 ≤ i ∧ i ≤ axis.length - 1) := by
  have hspecL := axis_index_spec axis (normalize_longitude q axis) hlen hs
  have hspecB := axis_index_spec axis q hlen hs
  refine ⟨?_, ?_, ?_, ?_⟩
  · by_cases hC : axis_index (normalize_longitude q axis) axis = 0 ∨
        axis_index (normalize_longitude q axis) axis = axis.length
    · refine iff_of_true ?_ (hspecL.1 hC)
      rw [find_longitude_index_eq, if_pos hC]
      exact ⟨_, rfl⟩
    · refine iff_of_false ?_ fun h => hC (hspecL.2 h)
      rintro ⟨e, he⟩
      rw [find_longitude_index_eq, if_neg hC] at he
      simp at he
  · rintro ⟨h1, h2⟩
    obtain ⟨hb1, hb2⟩ := axis_index_inside_generic axis _ hlen hs h1 h2
    refine ⟨axis_index (normalize_longitude q axis) axis, ?_, hb1, hb2⟩
    rw [find_longitude_index_eq, if_neg (by omega)]
  · by_cases hC : axis_index q axis = 0 ∨ axis_index q axis = axis.length
    · refine iff_of_true ?_ (hspecB.1 hC)
      rw [find_latitude_index_eq, if_pos hC]
      exact ⟨_, rfl⟩
    · refine iff_of_false ?_ fun h => hC (hspecB.2 h)
      rintro ⟨e, he⟩
      rw [find_latitude_index_eq, if_neg hC] at he
      simp at he
  · rintro ⟨h1, h2⟩
    obtain ⟨hb1, hb2⟩ := axis_index_inside_generic axis _ hlen hs h1 h2
    refine ⟨axis_index q axis, ?_, hb1, hb2⟩
    rw [find_latitude_index_eq, if_neg (by omega)]

/-- Witness for C1: the axis [-180, -90, 0, 90, 180] with query 45 satisfies
the hypotheses, and the success branch applies with resolved index in
[1, 4]. -/
theorem claim_C1_witness :
    ∃ i, (find_longitude_index 45 [-180, -90, 0, 90, 180]).2 =
        .ok (normalize_longitude 45 [-180, -90, 0, 90, 180], i) ∧
      1 ≤ i ∧ i ≤ [(-180 : ℚ), -90, 0, 90, 180].length - 1 := by
  refine (claim_C1 45 [-180, -90, 0, 90, 180] (by norm_num)
    (Or.inl (by decide))).2.1 ⟨?_, ?_⟩ <;>
    norm_num [normalize_longitude, List.getD]

/-- C2 is false as stated: with axis [-180, -90, 0, 90, 180] and query 45,
`find_longitude_index` returns lon_index 3, not 4. -/
theorem claim_C2_counterexample :
    (find_longitude_index 45 [-180, -90, 0, 90, 180]).2 = .ok (45, 3) ∧
      ¬((find_longitude_index 45 [-180, -90, 0, 90, 180]).2 = .ok (45, 4)) := by
  have h : (find_longitude_index 45 [-180, -90, 0, 90, 180]).2 = .ok (45, 3) := by
    norm_num [find_longitude_index, normalize_longitude, bisect_right, bisect_left,
      List.getD, List.countP_cons]
  refine ⟨h, fun hc => ?_⟩
  rw [h] at hc
  simp at hc

/-- C2 (amended): with axis [-180, -90, 0, 90, 180] and query 45, the
function returns normalized longitude 45 and lon_index 3, the index whose
bracket is axis[2] = 0 and axis[3] = 90. -/
theorem claim_C2_amended :
    (find_longitude_index 45 [-180, -90, 0, 90, 180]).2 = .ok (45, 3) ∧
      List.getD [-180, -90, 0, 90, 180] (3 - 1) (0 : ℚ) = 0 ∧
      List.getD [-180, -90, 0, 90, 180] 3 (0 : ℚ) = 90 := by
  refine ⟨?_, by norm_num [List.getD], by norm_num [List.getD]⟩
  norm_num [find_longitude_index, normalize_longitude, bisect_right, bisect_left,
    List.getD, List.countP_cons]

/-! Properties of the Python modulo used by the normalization step. -/

lemma pymod_nonneg_lt {x y : ℚ} (hy : 0 < y) : 0 ≤ pymod x y ∧ pymod x y < y := by
  unfold pymod
  have hf1 : (⌊x / y⌋ : ℚ) ≤ x / y := Int.floor_le _
  have hf2 : x / y < ⌊x / y⌋ + 1 := Int.lt_floor_add_one _
  have hxy : y * (x / y) = x := by field_simp
  have h1 : y * (⌊x / y⌋ : ℚ) ≤ y * (x / y) := mul_le_mul_of_nonneg_left hf1 hy.le
  have h2 : y * (x / y) < y * ((⌊x / y⌋ : ℚ) + 1) := by
    exact mul_lt_mul_of_pos_left hf2 hy
  rw [mul_add, mul_one] at h2
  constructor <;> linarith

/-- C3 (amended): for a 0..360-convention axis (no negative endpoint) every
query is normalized into [0, 360) and differs from the query by an integer
multiple of 360.  For a -180..180-convention axis (a negative endpoint) the
same holds, with range [-180, 180), for every query in [-180, 360).  The
original claim's universal over all queries is false in the negative
convention — the counterexample shows query 400 normalizing to -140, which
is not congruent to 400 modulo 360 — so the quantifier is restricted to
[-180, 360) there; nothing is asserted about other queries. -/
theorem claim_C3_amended (q : ℚ) (axis : List ℚ) :
    (¬(axis.getD 0 0 < 0 ∨ axis.getD (axis.length - 1) 0 < 0) →
      0 ≤ normalize_longitude q axis ∧ normalize_longitude q axis < 360 ∧
        ∃ k : ℤ, normalize_longitude q axis = q + 360 * k) ∧
    ((axis.getD 0 0 < 0 ∨ axis.getD (axis.length - 1) 0 < 0) →
      -180 ≤ q → q < 360 →
      -180 ≤ normalize_longitude q axis ∧ normalize_longitude q axis < 180 ∧
        ∃ k : ℤ, normalize_longitude q axis = q + 360 * k) := by
  constructor
  · intro hc
    unfold normalize_longitude
    rw [if_neg hc]
    obtain ⟨hr1, hr2⟩ := pymod_nonneg_lt (x := q) (show (0:ℚ) < 360 by norm_num)
    refine ⟨hr1, hr2, ⟨-⌊q / 360⌋, ?_⟩⟩
    unfold pymod
    push_cast
    ring
  · intro hc hq1 hq2
    unfold normalize_longitude
    rw [if_pos hc]
    by_cases hq : q < 180
    · rw [if_pos hq]
      exact ⟨hq1, hq, ⟨0, by ring⟩⟩
    · rw [if_neg hq]
      push_neg at hq
      have hfl : ⌊q / 180⌋ = 1 := by
        rw [Int.floor_eq_iff]
        constructor
        · rw [le_div_iff₀ (by norm_num : (0:ℚ) < 180)]
          push_cast
          linarith
        · rw [div_lt_iff₀ (by norm_num : (0:ℚ) < 180)]
          push_cast
          linarith
      have hpm : pymod q 180 = q - 180 := by
        unfold pymod
        rw [hfl]
        push_cast
        ring
      rw [hpm]
      refine ⟨by linarith, by linarith, ⟨-1, by push_cast; ring⟩⟩

/-- Witness for C3 (amended): a 0..360-convention axis [0, 90] with query
500 is normalized to a value in [0, 360) congruent to 500 modulo 360, and a
-180..180-convention axis [-180, 180] with query 200 is normalized to a
value in [-180, 180) congruent to 200 modulo 360. -/
theorem claim_C3_witness :
    (0 ≤ normalize_longitude 500 [0, 90] ∧ normalize_longitude 500 [0, 90] < 360 ∧
      ∃ k : ℤ, normalize_longitude 500 [0, 90] = 500 + 360 * k) ∧
    (-180 ≤ normalize_longitude 200 [-180, 180] ∧
      normalize_longitude 200 [-180, 180] < 180 ∧
      ∃ k : ℤ, normalize_longitude 200 [-180, 180] = 200 + 360 * k) :=
  ⟨(claim_C3_amended 500 [0, 90]).1 (by norm_num [List.getD]),
    (claim_C3_amended 200 [-180, 180]).2 (by norm_num [List.getD])
      (by norm_num) (by norm_num)⟩

/-- C3 is false as stated: for the -180..180-convention axis [-180, 180]
and query longitude 400, the code produces -140, which is not congruent to
400 modulo 360 (400 mod 360 is 40, and -140 differs from 400 by 540): the
normalized value does not represent the same geographic longitude. -/
theorem claim_C3_counterexample :
    normalize_longitude 400 [-180, 180] = -140 ∧
      ¬∃ k : ℤ, normalize_longitude 400 [-180, 180] = 400 + 360 * k := by
  have hn : normalize_longitude 400 [-180, 180] = -140 := by
    norm_num [normalize_longitude, pymod, List.getD]
  refine ⟨hn, ?_⟩
  rintro ⟨k, hk⟩
  rw [hn] at hk
  have h3 : ((2 * k : ℤ) : ℚ) = -3 := by
    push_cast
    linarith
  have h4 : (2 * k : ℤ) = -3 := by exact_mod_cast h3
  omega

/-! Reversal consistency of the longitude resolution. -/

lemma normalize_longitude_reverse (q : ℚ) (l : List ℚ) :
    normalize_longitude q l.reverse = normalize_longitude q l := by
  rcases eq_or_ne l [] with rfl | hne
  · rfl
  · have h0 : 0 < l.length := List.length_pos.2 hne
    unfold normalize_longitude
    simp only [List.length_reverse]
    rw [getD_reverse h0, getD_reverse (show l.length - 1 < l.length by omega)]
    simp only [Nat.sub_zero, Nat.sub_self]
    by_cases hc : l.getD 0 0 < 0 ∨ l.getD (l.length - 1) 0 < 0
    · rw [if_pos (Or.symm hc), if_pos hc]
    · rw [if_neg (fun h => hc (Or.symm h)), if_neg hc]

lemma axis_index_interior_asc {lst : List ℚ} {q : ℚ} (hlen : 2 ≤ lst.length)
    (hs : lst.Sorted (· < ·)) (hmem : q ∉ lst)
    (h0 : lst.getD 0 0 < q) (h1 : q < lst.getD (lst.length - 1) 0) :
    axis_index q lst = bisect_left lst q ∧
      axis_index q lst.reverse = lst.length - bisect_left lst q ∧
      1 ≤ bisect_left lst q ∧ bisect_left lst q ≤ lst.length - 1 := by
  have hlt : lst.getD 0 0 < lst.getD (lst.length - 1) 0 :=
    sorted_lt_getD_lt hs (by omega) (by omega)
  have hc : bisect_right lst q = bisect_left lst q := by
    unfold bisect_right bisect_left
    refine List.countP_congr fun y hy => ?_
    simp only [decide_eq_true_eq]
    constructor
    · intro hle
      rcases lt_or_eq_of_le hle with h | h
      · exact h
      · exact absurd (h ▸ hy) hmem
    · exact le_of_lt
  have p1 : 0 < bisect_left lst q := bisect_left_pos (by omega) h0
  have p2 : bisect_left lst q < lst.length := bisect_left_lt_length (by omega) h1.le
  refine ⟨?_, ?_, p1, by omega⟩
  · have hcond : ¬(bisect_left lst q = lst.length ∧
        lst.getD (bisect_left lst q - 1) 0 = q) := by
      rintro ⟨h, -⟩
      omega
    unfold axis_index
    rw [if_pos hlt, hc, if_neg hcond]
  · have er0 : lst.reverse.getD 0 0 = lst.getD (lst.length - 1) 0 := by
      simpa using getD_reverse (show 0 < lst.length by omega)
    have er1 : lst.reverse.getD (lst.reverse.length - 1) 0 = lst.getD 0 0 := by
      rw [List.length_reverse, getD_reverse (show lst.length - 1 < lst.length by omega)]
      congr 1
      omega
    have hbr : ¬(lst.reverse.getD 0 0 < lst.reverse.getD (lst.reverse.length - 1) 0) := by
      rw [er0, er1]
      exact not_lt.2 hlt.le
    have hcond2 : ¬(lst.length - bisect_left lst q = lst.length ∧
        lst.reverse.getD (lst.length - bisect_left lst q - 1) 0 = q) := by
      rintro ⟨h, -⟩
      omega
    unfold axis_index
    rw [if_neg hbr, List.reverse_reverse, List.length_reverse]
    simp only [if_neg hcond2]

lemma reversal_bracket_asc {q : ℚ} {axis : List ℚ} (hlen : 2 ≤ axis.length)
    (hs : axis.Sorted (· < ·)) (hmem : normalize_longitude q axis ∉ axis)
    (hlo : axis.getD 0 0 < normalize_longitude q axis)
    (hhi : normalize_longitude q axis < axis.getD (axis.length - 1) 0) :
    ∃ i j, (find_longitude_index q axis).2 = .ok (normalize_longitude q axis, i) ∧
      (find_longitude_index q axis.reverse).2 =
        .ok (normalize_longitude q axis, j) ∧
      axis.getD (i - 1) 0 = axis.reverse.getD j 0 ∧
      axis.getD i 0 = axis.reverse.getD (j - 1) 0 := by
  obtain ⟨e1, e2, p1, p2⟩ := axis_index_interior_asc hlen hs hmem hlo hhi
  refine ⟨bisect_left axis (normalize_longitude q axis),
    axis.length - bisect_left axis (normalize_longitude q axis), ?_, ?_, ?_, ?_⟩
  · rw [find_longitude_index_eq, if_neg (by omega), e1]
  · rw [find_longitude_index_eq, normalize_longitude_reverse, if_neg ?hcond]
    · rw [e2]
    case hcond =>
      rw [e2, List.length_reverse]
      omega
  · rw [getD_reverse (show axis.length - bisect_left axis (normalize_longitude q axis) <
      axis.length by omega)]
    congr 1
    omega
  · rw [getD_reverse (show axis.length - bisect_left axis (normalize_longitude q axis) - 1 <
      axis.length by omega)]
    congr 1
    omega

/-- C4 (amended): for every strictly ordered axis and every query whose
normalized longitude lies strictly inside the axis span and is not itself a
grid point, resolving with `find_longitude_index` against the axis and
against its element-reversed copy yields indices i and j that select the
same physical grid cell: the unordered pair {axis[i-1], axis[i]} equals
{reversed[j-1], reversed[j]}.  (At a query equal to an interior grid point
the two runs bracket different, adjacent cells; see the counterexample.) -/
theorem claim_C4_amended (q : ℚ) (axis : List ℚ) (hlen : 2 ≤ axis.length)
    (hs : axis.Sorted (· < ·) ∨ axis.Sorted (· > ·))
    (hmem : normalize_longitude q axis ∉ axis)
    (hlo : min (axis.getD 0 0) (axis.getD (axis.length - 1) 0) <
      normalize_longitude q axis)
    (hhi : normalize_longitude q axis <
      max (axis.getD 0 0) (axis.getD (axis.length - 1) 0)) :
    ∃ i j, (find_longitude_index q axis).2 = .ok (normalize_longitude q axis, i) ∧
      (find_longitude_index q axis.reverse).2 =
        .ok (normalize_longitude q axis, j) ∧
      ((axis.getD (i - 1) 0 = axis.reverse.getD (j - 1) 0 ∧
          axis.getD i 0 = axis.reverse.getD j 0) ∨
        (axis.getD (i - 1) 0 = axis.reverse.getD j 0 ∧
          axis.getD i 0 = axis.reverse.getD (j - 1) 0)) := by
  rcases hs with hs | hs
  · have hlt : axis.getD 0 0 < axis.getD (axis.length - 1) 0 :=
      sorted_lt_getD_lt hs (by omega) (by omega)
    rw [min_eq_left hlt.le] at hlo
    rw [max_eq_right hlt.le] at hhi
    obtain ⟨i, j, h1, h2, hb1, hb2⟩ := reversal_bracket_asc hlen hs hmem hlo hhi
    exact ⟨i, j, h1, h2, Or.inr ⟨hb1, hb2⟩⟩
  · have hb : axis.reverse.Sorted (· < ·) := sorted_reverse_asc hs
    have hlenb : 2 ≤ axis.reverse.length := by simpa using hlen
    have hnorm : normalize_longitude q axis.reverse = normalize_longitude q axis :=
      normalize_longitude_reverse q axis
    have hgt : axis.getD (axis.length - 1) 0 < axis.getD 0 0 :=
      sorted_gt_getD_lt hs (by omega) (by omega)
    rw [min_eq_right hgt.le] at hlo
    rw [max_eq_left hgt.le] at hhi
    have er0 : axis.reverse.getD 0 0 = axis.getD (axis.length - 1) 0 := by
      simpa using getD_reverse (show 0 < axis.length by omega)
    have er1 : axis.reverse.getD (axis.reverse.length - 1) 0 = axis.getD 0 0 := by
      rw [List.length_reverse,
        getD_reverse (show axis.length - 1 < axis.length by omega)]
      congr 1
      omega
    have hmem' : normalize_longitude q axis.reverse ∉ axis.reverse := by
      rw [hnorm]
      simpa using hmem
    have hlo' : axis.reverse.getD 0 0 < normalize_longitude q axis.reverse := by
      rw [hnorm, er0]
      exact hlo
    have hhi' : normalize_longitude q axis.reverse <
        axis.reverse.getD (axis.reverse.length - 1) 0 := by
      rw [hnorm, er1]
      exact hhi
    obtain ⟨i, j, h1, h2, hb1, hb2⟩ := reversal_bracket_asc hlenb hb hmem' hlo' hhi'
    rw [List.reverse_reverse] at h2 hb1 hb2
    rw [hnorm] at h1 h2
    exact ⟨j, i, h2, h1, Or.inr ⟨hb2.symm, hb1.symm⟩⟩

/-- Witness for C4 (amended): axis [0, 10, 20, 30] with query 15 (normalized
to 15, strictly inside the span and not a grid point). -/
theorem claim_C4_witness :
    ∃ i j, (find_longitude_index 15 [0, 10, 20, 30]).2 =
        .ok (normalize_longitude 15 [0, 10, 20, 30], i) ∧
      (find_longitude_index 15 ([0, 10, 20, 30] : List ℚ).reverse).2 =
        .ok (normalize_longitude 15 [0, 10, 20, 30], j) ∧
      ((([0, 10, 20, 30] : List ℚ).getD (i - 1) 0 =
            ([0, 10, 20, 30] : List ℚ).reverse.getD (j - 1) 0 ∧
          ([0, 10, 20, 30] : List ℚ).getD i 0 =
            ([0, 10, 20, 30] : List ℚ).reverse.getD j 0) ∨
        (([0, 10, 20, 30] : List ℚ).getD (i - 1) 0 =
            ([0, 10, 20, 30] : List ℚ).reverse.getD j 0 ∧
          ([0, 10, 20, 30] : List ℚ).getD i 0 =
            ([0, 10, 20, 30] : List ℚ).reverse.getD (j - 1) 0)) := by
  refine claim_C4_amended 15 [0, 10, 20, 30] (by norm_num) (Or.inl (by decide))
    ?_ ?_ ?_ <;>
    norm_num [normalize_longitude, pymod, List.getD]

/-- C4 is false as stated: query 10 lies strictly inside the span of the
strictly ascending axis [0, 10, 20, 30], yet the ascending resolution
brackets the cell [10, 20] (index 2) while the reversed-axis resolution
brackets the cell [0, 10] (index 3) — different physical cells, because the
query equals an interior grid point. -/
theorem claim_C4_counterexample :
    List.Sorted (· < ·) ([0, 10, 20, 30] : List ℚ) ∧
    normalize_longitude 10 [0, 10, 20, 30] = 10 ∧
    min (([0, 10, 20, 30] : List ℚ).getD 0 0)
        (([0, 10, 20, 30] : List ℚ).getD 3 0) < 10 ∧
    (10 : ℚ) < max (([0, 10, 20, 30] : List ℚ).getD 0 0)
        (([0, 10, 20, 30] : List ℚ).getD 3 0) ∧
    (find_longitude_index 10 [0, 10, 20, 30]).2 = .ok (10, 2) ∧
    (find_longitude_index 10 (([0, 10, 20, 30] : List ℚ).reverse)).2 =
      .ok (10, 3) ∧
    ¬((([0, 10, 20, 30] : List ℚ).getD (2 - 1) 0 =
          ([0, 10, 20, 30] : List ℚ).reverse.getD (3 - 1) 0 ∧
        ([0, 10, 20, 30] : List ℚ).getD 2 0 =
          ([0, 10, 20, 30] : List ℚ).reverse.getD 3 0) ∨
      (([0, 10, 20, 30] : List ℚ).getD (2 - 1) 0 =
          ([0, 10, 20, 30] : List ℚ).reverse.getD 3 0 ∧
        ([0, 10, 20, 30] : List ℚ).getD 2 0 =
          ([0, 10, 20, 30] : List ℚ).reverse.getD (3 - 1) 0)) := by
  refine ⟨by decide, ?_, ?_, ?_, ?_, ?_, ?_⟩ <;>
    norm_num [find_longitude_index, normalize_longitude, bisect_right, bisect_left,
      pymod, List.getD, List.countP_cons]

lemma foldl_argmin_const_zero (f : ℕ → ℚ) (l : List ℕ)
    (h : ∀ i ∈ l, ¬f i < f 0) :
    l.foldl (fun best i => if f i < f best then i else best) 0 = 0 := by
  induction l with
  | nil => rfl
  | cons a t ih =>
    simp only [List.foldl_cons]
    rw [if_neg (h a (List.mem_cons_self a t))]
    exact ih fun i hi => h i (List.mem_cons_of_mem a hi)

lemma foldl_argmin_strict_desc (f : ℕ → ℚ) (n : ℕ) (hn : 0 < n)
    (h : ∀ i, i + 1 < n → f (i + 1) < f i) :
    (List.range n).foldl (fun best i => if f i < f best then i else best) 0 =
      n - 1 := by
  induction n with
  | zero => omega
  | succ m ih =>
    rcases Nat.eq_zero_or_pos m with rfl | hm
    · show List.foldl _ 0 [0] = 0
      simp only [List.foldl_cons, List.foldl_nil]
      rw [if_neg (lt_irrefl _)]
    · rw [List.range_succ, List.foldl_append,
        ih hm fun i hi => h i (by omega)]
      simp only [List.foldl_cons, List.foldl_nil]
      have hstep : f m < f (m - 1) := by
        have := h (m - 1) (by omega)
        have hmm : m - 1 + 1 = m := by omega
        rwa [hmm] at this
      rw [if_pos hstep]
      omega

lemma nearest_time_index_of_below {ts : List ℚ} {x : ℚ} (hs : ts.Sorted (· < ·))
    (hx : x < ts.getD 0 0) : nearest_time_index ts x = 0 := by
  unfold nearest_time_index
  refine foldl_argmin_const_zero _ _ fun i hi => ?_
  rw [List.mem_range] at hi
  have h0i : ts.getD 0 0 ≤ ts.getD i 0 := by
    rcases Nat.eq_zero_or_pos i with rfl | hpos
    · exact le_refl _
    · exact (sorted_lt_getD_lt hs hpos hi).le
  rw [abs_of_pos (by linarith), abs_of_pos (by linarith)]
  linarith

lemma nearest_time_index_of_above {ts : List ℚ} {x : ℚ} (hs : ts.Sorted (· < ·))
    (hne : ts ≠ []) (hx : ts.getD (ts.length - 1) 0 < x) :
    nearest_time_index ts x = ts.length - 1 := by
  unfold nearest_time_index
  refine foldl_argmin_strict_desc _ _ (List.length_pos.2 hne) fun i hi => ?_
  have hii : ts.getD i 0 < ts.getD (i + 1) 0 := sorted_lt_getD_lt hs (by omega) hi
  have hlast : ts.getD (i + 1) 0 ≤ ts.getD (ts.length - 1) 0 := by
    rcases Nat.eq_or_lt_of_le (show i + 1 ≤ ts.length - 1 by omega) with he | hl
    · rw [he]
    · exact (sorted_lt_getD_lt hs hl (by omega)).le
  rw [abs_of_neg (by linarith), abs_of_neg (by linarith)]
  linarith

/-- C6: for a strictly increasing nonempty time axis, `find_time_index`
raises the out-of-range error naming the crossed boundary sample exactly
when the query's numeric encoding is strictly before the first or strictly
after the last time sample; a query inside the span returns the nearest
index without failing, emitting the warning that names the substituted
nearest time exactly when the query is not an exact sample. -/
theorem claim_C6 (x : ℚ) (ts : List ℚ) (hne : ts ≠ [])
    (hs : ts.Sorted (· < ·)) :
    (x < ts.getD 0 0 →
      find_time_index x ts = .error (.beforeStart (ts.getD 0 0))) ∧
    (ts.getD (ts.length - 1) 0 < x →
      find_time_index x ts = .error (.afterFinish (ts.getD (ts.length - 1) 0))) ∧
    (ts.getD 0 0 ≤ x → x ≤ ts.getD (ts.length - 1) 0 →
      find_time_index x ts = .ok (nearest_time_index ts x,
        if x = ts.getD (nearest_time_index ts x) 0 then none
        else some (ts.getD (nearest_time_index ts x) 0))) ∧
    ((∃ e, find_time_index x ts = .error e) ↔
      (x < ts.getD 0 0 ∨ ts.getD (ts.length - 1) 0 < x)) := by
  have hbelow : x < ts.getD 0 0 →
      find_time_index x ts = .error (.beforeStart (ts.getD 0 0)) := by
    intro hx
    unfold find_time_index
    rw [nearest_time_index_of_below hs hx]
    rw [if_pos ⟨rfl, hx⟩]
  have habove : ts.getD (ts.length - 1) 0 < x →
      find_time_index x ts = .error (.afterFinish (ts.getD (ts.length - 1) 0)) := by
    intro hx
    unfold find_time_index
    rw [nearest_time_index_of_above hs hne hx]
    rw [if_neg ?g1, if_pos ⟨rfl, hx⟩]
    case g1 =>
      rintro ⟨-, hlt⟩
      exact absurd hlt (not_lt.2 hx.le)
  have hinside : ts.getD 0 0 ≤ x → x ≤ ts.getD (ts.length - 1) 0 →
      find_time_index x ts = .ok (nearest_time_index ts x,
        if x = ts.getD (nearest_time_index ts x) 0 then none
        else some (ts.getD (nearest_time_index ts x) 0)) := by
    intro h1 h2
    unfold find_time_index
    rw [if_neg ?g2, if_neg ?g3]
    case g2 =>
      rintro ⟨h0, hlt⟩
      rw [h0] at hlt
      exact absurd hlt (not_lt.2 h1)
    case g3 =>
      rintro ⟨hl, hgt⟩
      rw [hl] at hgt
      exact absurd hgt (not_lt.2 h2)
    by_cases hxf : x = ts.getD (nearest_time_index ts x) 0
    · rw [if_neg (not_not_intro hxf), if_pos hxf]
    · rw [if_pos hxf, if_neg hxf]
  refine ⟨hbelow, habove, hinside, ?_, ?_⟩
  · rintro ⟨e, he⟩
    by_contra hout
    push_neg at hout
    rw [hinside hout.1 hout.2] at he
    simp at he
  · rintro (hx | hx)
    · exact ⟨_, hbelow hx⟩
    · exact ⟨_, habove hx⟩

/-- Witness for C6: on the time axis [0, 6, 12] a query exactly one unit
before the first sample fails, and the error names the file's start time. -/
theorem claim_C6_witness :
    find_time_index (-1) [0, 6, 12] = .error (.beforeStart 0) := by
  have h := (claim_C6 (-1) [0, 6, 12] (by decide) (by decide)).1
    (by norm_num [List.getD])
  simpa [List.getD] using h

lemma column_stack_clean {args : List (List MaskedVal)}
    (hclean : ∀ l ∈ args, ∀ v ∈ l, v.mask = false) :
    ∀ row ∈ column_stack args, ∀ v ∈ row, v.mask = false := by
  intro row hrow v hv
  unfold column_stack at hrow
  obtain ⟨i, -, rfl⟩ := List.mem_map.1 hrow
  obtain ⟨col, hcol, rfl⟩ := List.mem_map.1 hv
  rcases lt_or_le i col.length with hi | hi
  · exact hclean col hcol _ (getD_mem_of_lt hi)
  · rw [List.getD_eq_default _ _ hi]

/-- C8: given two parallel length-5 arrays in which exactly row 2 of one
array is masked, the cleaner returns a 4-row stacked array and emits the
warning exactly once (the boolean records the single emission); and for
inputs with no masked value it returns the full stacked array unchanged and
emits no warning. -/
theorem claim_C8 (args : List (List MaskedVal))
    (hclean : ∀ l ∈ args, ∀ v ∈ l, v.mask = false) :
    ((mask_and_clean_dataset
          [[⟨1, false⟩, ⟨2, false⟩, ⟨3, false⟩, ⟨4, false⟩, ⟨5, false⟩],
            [⟨6, false⟩, ⟨7, false⟩, ⟨8, true⟩, ⟨9, false⟩,
              ⟨10, false⟩]]).1.length = 4 ∧
      (mask_and_clean_dataset
          [[⟨1, false⟩, ⟨2, false⟩, ⟨3, false⟩, ⟨4, false⟩, ⟨5, false⟩],
            [⟨6, false⟩, ⟨7, false⟩, ⟨8, true⟩, ⟨9, false⟩,
              ⟨10, false⟩]]).2 = true) ∧
    mask_and_clean_dataset args = (column_stack args, false) := by
  refine ⟨⟨by decide, by decide⟩, ?_⟩
  have h := column_stack_clean hclean
  have hany : (column_stack args).any (fun row => row.any (fun v => v.mask)) =
      false := by
    rw [List.any_eq_false]
    intro row hrow
    rw [Bool.not_eq_true, List.any_eq_false]
    intro v hv
    rw [Bool.not_eq_true]
    exact h row hrow v hv
  unfold mask_and_clean_dataset
  rw [if_neg (by rw [hany]; simp)]

/-- Witness for C8: on two unmasked columns the cleaner returns the full
stacked array and emits no warning. -/
theorem claim_C8_witness :
    mask_and_clean_dataset [[⟨1, false⟩, ⟨2, false⟩], [⟨3, false⟩, ⟨4, false⟩]] =
      (column_stack [[⟨1, false⟩, ⟨2, false⟩], [⟨3, false⟩, ⟨4, false⟩]], false) :=
  (claim_C8 [[⟨1, false⟩, ⟨2, false⟩], [⟨3, false⟩, ⟨4, false⟩]] (by decide)).2

/-- C10: for same-length input arrays, the array returned by
`mask_and_clean_dataset` contains no masked entries at all — every row of
the output is fully unmasked — and the kept rows are a sublist of the
stacked rows: original relative order, original values. -/
theorem claim_C10 (args : List (List MaskedVal)) (n : ℕ)
    (_hlen : ∀ l ∈ args, l.length = n) :
    (∀ row ∈ (mask_and_clean_dataset args).1, ∀ v ∈ row, v.mask = false) ∧
      (mask_and_clean_dataset args).1.Sublist (column_stack args) := by
  unfold mask_and_clean_dataset
  by_cases h : (column_stack args).any (fun row => row.any (fun v => v.mask)) = true
  · rw [if_pos h]
    constructor
    · intro row hrow v hv
      have hp := List.of_mem_filter hrow
      simp only [Bool.not_eq_true', List.any_eq_false] at hp
      have := hp v hv
      simpa using this
    · exact List.filter_sublist _
  · rw [if_neg h]
    rw [Bool.not_eq_true, List.any_eq_false] at h
    constructor
    · intro row hrow v hv
      have := h row hrow
      rw [Bool.not_eq_true, List.any_eq_false] at this
      have hv2 := this v hv
      simpa using hv2
    · exact List.Sublist.refl _

/-- Witness for C10 at a single column of length 2 with one masked entry. -/
theorem claim_C10_witness :
    (∀ row ∈ (mask_and_clean_dataset [[⟨1, false⟩, ⟨2, true⟩]]).1,
        ∀ v ∈ row, v.mask = false) ∧
      (mask_and_clean_dataset [[⟨1, false⟩, ⟨2, true⟩]]).1.Sublist
        (column_stack [[⟨1, false⟩, ⟨2, true⟩]]) :=
  claim_C10 [[⟨1, false⟩, ⟨2, true⟩]] 2 (by decide)

/-- C5 (spec-modelled): the scenario tank has constant net mass flow rate
-0.11 at every time, its mass is the initial mass 5.1 plus the integral of
the net rate (= net · t for constant rates), and mass(5) = 5.1 - 0.11·5 =
4.55 exactly — in particular within the 1e-5 tolerance. -/
theorem claim_C5 (t : ℚ) :
    mfr_test_tank.net_mass_flow_rate t = -(11/100) ∧
    mfr_test_tank.mass t = mfr_test_tank.initial_liquid_mass +
      mfr_test_tank.initial_gas_mass + mfr_test_tank.net_mass_flow_rate t * t ∧
    mfr_test_tank.mass t = 51/10 - (11/100) * t ∧
    mfr_test_tank.mass 5 = 91/20 ∧
    |mfr_test_tank.mass 5 - 91/20| ≤ 1/100000 := by
  refine ⟨?_, rfl, ?_, ?_, ?_⟩ <;>
    · norm_num [mfr_test_tank, MassFlowRateBasedTank.mass,
        MassFlowRateBasedTank.net_mass_flow_rate]
      try ring

/-- C7 (spec-modelled): with distinct corner coordinates, the bilinear
interpolation evaluated at each of the four corner coordinate pairs returns
exactly that corner's field value, and `apply_bilinear_interpolation`
reproduces each entry of its 2×2 data cell at the matching corner. -/
theorem claim_C7 (x1 x2 y1 y2 : ℚ) (hx : x1 ≠ x2) (hy : y1 ≠ y2)
    (f11 f12 f21 f22 : ℚ) (data : Fin 2 → Fin 2 → ℚ) :
    bilinear_interpolation x1 y1 x1 x2 y1 y2 f11 f12 f21 f22 = f11 ∧
    bilinear_interpolation x1 y2 x1 x2 y1 y2 f11 f12 f21 f22 = f12 ∧
    bilinear_interpolation x2 y1 x1 x2 y1 y2 f11 f12 f21 f22 = f21 ∧
    bilinear_interpolation x2 y2 x1 x2 y1 y2 f11 f12 f21 f22 = f22 ∧
    apply_bilinear_interpolation x1 y1 x1 x2 y1 y2 data = data 0 0 ∧
    apply_bilinear_interpolation x1 y2 x1 x2 y1 y2 data = data 0 1 ∧
    apply_bilinear_interpolation x2 y1 x1 x2 y1 y2 data = data 1 0 ∧
    apply_bilinear_interpolation x2 y2 x1 x2 y1 y2 data = data 1 1 := by
  have hx' : x2 - x1 ≠ 0 := sub_ne_zero.2 (Ne.symm hx)
  have hy' : y2 - y1 ≠ 0 := sub_ne_zero.2 (Ne.symm hy)
  unfold apply_bilinear_interpolation bilinear_interpolation
  refine ⟨?_, ?_, ?_, ?_, ?_, ?_, ?_, ?_⟩ <;>
    · field_simp
      ring

/-- Witness for C7 at the cell x1 = 0, x2 = 1, y1 = 0, y2 = 2 with corner
values 11, 12, 21, 22. -/
theorem claim_C7_witness :
    bilinear_interpolation 0 0 0 1 0 2 11 12 21 22 = 11 ∧
    bilinear_interpolation 0 2 0 1 0 2 11 12 21 22 = 12 ∧
    bilinear_interpolation 1 0 0 1 0 2 11 12 21 22 = 21 ∧
    bilinear_interpolation 1 2 0 1 0 2 11 12 21 22 = 22 ∧
    apply_bilinear_interpolation 0 0 0 1 0 2 ![![11, 12], ![21, 22]] =
      ![![11, 12], ![21, 22]] 0 0 ∧
    apply_bilinear_interpolation 0 2 0 1 0 2 ![![11, 12], ![21, 22]] =
      ![![11, 12], ![21, 22]] 0 1 ∧
    apply_bilinear_interpolation 1 0 0 1 0 2 ![![11, 12], ![21, 22]] =
      ![![11, 12], ![21, 22]] 1 0 ∧
    apply_bilinear_interpolation 1 2 0 1 0 2 ![![11, 12], ![21, 22]] =
      ![![11, 12], ![21, 22]] 1 1 :=
  claim_C7 0 1 0 2 (by norm_num) (by norm_num) 11 12 21 22 ![![11, 12], ![21, 22]]
